import Mathlib

/-!
Verification development for the transform layer of an ETL pipeline
(`agoradatatools`).  The pandas dataframe code is shallowly embedded:

* a rectangular dataset is a list of rows; a row is an association list
  from column name to cell;
* a cell is either a scalar value (string or exact rational standing in
  for a float), the pandas missing marker `NaN` (`Cell.nan`), or the
  Python `None` object (`Cell.pynone`);
* floating point arithmetic is idealized as exact rational (or, for the
  `2 ** logfc` power in the RNA-seq transform, real) arithmetic;
* `numpy`/pandas rounding (`round`, `np.around`) is round-half-to-even,
  embedded exactly on rationals;
* pandas `groupby` sorts group keys ascending and drops null keys; both
  behaviours are embedded explicitly.
-/

/-- Lexicographic comparison of character lists (string order). -/
def charListLe : List Char → List Char → Bool
  | [], _ => true
  | _ :: _, [] => false
  | a :: as, b :: bs => if a < b then true else if b < a then false else charListLe as bs

/-- String order used when pandas sorts group keys. -/
def strLe (a b : String) : Bool := charListLe a.toList b.toList

/-- Insert into a sorted list, keeping it sorted w.r.t. `le`. -/
def insertLe (le : α → α → Bool) (a : α) : List α → List α
  | [] => [a]
  | b :: bs => if le a b then a :: b :: bs else b :: insertLe le a bs

/-- Insertion sort; embeds the ascending key sort performed by pandas `groupby`. -/
def sortLe (le : α → α → Bool) : List α → List α
  | [] => []
  | a :: as => insertLe le a (sortLe le as)

/-- Whether `pat` occurs as a contiguous sublist of the second argument.
This is `re.search` for a pattern with no regex metacharacters. -/
def subOf (pat : List Char) : List Char → Bool
  | [] => pat.isEmpty
  | c :: cs => pat.isPrefixOf (c :: cs) || subOf pat cs

/-- Round half to even to an integer (the rounding of `numpy.round`),
on exact rationals. -/
def roundHalfEven (q : ℚ) : ℤ :=
  let f := ⌊q⌋
  let frac := q - f
  if frac < 1/2 then f
  else if 1/2 < frac then f + 1
  else if f % 2 = 0 then f else f + 1

/-- Round half to even at `d` decimal places (`Series.round(decimals=d)`,
`np.around(x, d)`). -/
def roundTo (d : ℕ) (q : ℚ) : ℚ := (roundHalfEven (q * (10 ^ d)) : ℚ) / (10 ^ d)

/-! ## Generic rectangular-dataset model

Used by the building blocks `standardize_values`, `nest_fields` and
`count_grouped_total` (src/agoradatatools/etl/transform.py). -/

/-- A scalar cell value: a string, or a number (floats idealized as ℚ). -/
inductive Val where
  | str (s : String)
  | num (q : ℚ)
deriving DecidableEq

/-- A dataframe cell: a scalar, the pandas missing marker `NaN`, or the
Python object `None` (produced by `replace({np.nan: None})`). -/
inductive Cell where
  | val (v : Val)
  | nan
  | pynone
deriving DecidableEq

/-- Both `NaN` and `None` count as null for pandas (`isna`, `groupby` key
dropping). -/
def Cell.isNull : Cell → Bool
  | .nan => true
  | .pynone => true
  | .val _ => false

/-- The scalar payload of a cell, if any. -/
def Cell.toVal : Cell → Option Val
  | .val v => some v
  | _ => none

/-- A row of a rectangular dataset: column name to cell, in column order. -/
abbrev Row := List (String × Cell)

/-- Value of a row at a column (`row[col]`); a column absent from the
schema is treated as missing. -/
def getCell (r : Row) (c : String) : Cell :=
  match r.find? (fun p => p.1 == c) with
  | some p => p.2
  | none => Cell.nan

/-- Ordering on scalar values used when pandas sorts homogeneous group
keys ascending (numbers and strings are never compared in the datasets at
hand; the cross-constructor cases only make the order total). -/
def valLe : Val → Val → Bool
  | .num a, .num b => decide (a ≤ b)
  | .num _, .str _ => true
  | .str _, .num _ => false
  | .str a, .str b => strLe a b

/-- Lexicographic ordering on key tuples for multi-column grouping. -/
def valListLe : List Val → List Val → Bool
  | [], _ => true
  | _ :: _, [] => false
  | a :: as, b :: bs => if a = b then valListLe as bs else valLe a b

/-! ## Column Normalizer (`standardize_column_names`)

From src/agoradatatools/etl/transform.py lines 5-22.  Column names are
modeled as lists of Unicode code points (Python strings).  The first
`str.replace` removes the characters of the regex class
`[#@&*^?()%$#!/]`; the second replaces the characters of the class
`[ -.]` — a character RANGE from space (32) to `.` (46) — with `_`; then
`str.lower` lowercases. -/

/-- Membership in the removal class `[#@&*^?()%$#!/]` (code points). -/
def isRemovedChar (n : ℕ) : Bool :=
  decide (n = 35 ∨ n = 64 ∨ n = 38 ∨ n = 42 ∨ n = 94 ∨ n = 63 ∨ n = 40 ∨ n = 41 ∨
    n = 37 ∨ n = 36 ∨ n = 33 ∨ n = 47)

/-- The class `[ -.]` is the range space..`.`; matching characters become
`_` (code point 95). -/
def repSep (n : ℕ) : ℕ := if 32 ≤ n ∧ n ≤ 46 then 95 else n

/-- ASCII lowercasing, as `str.lower` acts on the column names at hand. -/
def pyLower (n : ℕ) : ℕ := if 65 ≤ n ∧ n ≤ 90 then n + 32 else n

/-- Normalization of one column name: remove, replace separators, lowercase. -/
def stdName (s : List ℕ) : List ℕ :=
  (s.filter (fun c => !isRemovedChar c)).map (fun c => pyLower (repSep c))

/-- The Column Normalizer applied to a dataset's column-name list. -/
def standardize_column_names (cols : List (List ℕ)) : List (List ℕ) :=
  cols.map stdName

/-! ## Value Normalizer (`standardize_values`)

From src/agoradatatools/etl/transform.py lines 25-41:
`df.replace(["n/a", "N/A", "n/A", "N/a"], np.nan, regex=True)`.
With `regex=True` each token is a regex; none contains a metacharacter,
so `re.search` is substring containment, and because the replacement
value is not a string, pandas replaces the WHOLE cell of every string
cell in which some pattern occurs. -/

def missingTokens : List String := ["n/a", "N/A", "n/A", "N/a"]

/-- Does some pattern of the list occur (re.search) in the string? -/
def regexSearchAny (patterns : List String) (s : String) : Bool :=
  patterns.any (fun p => subOf p.toList s.toList)

/-- Pandas `replace(patterns, np.nan, regex=True)` on a single cell. -/
def replaceCellRegex (patterns : List String) (c : Cell) : Cell :=
  match c with
  | .val (.str s) => if regexSearchAny patterns s then .nan else c
  | _ => c

/-- The Value Normalizer. -/
def standardize_values (df : List Row) : List Row :=
  df.map (fun r => r.map (fun p => (p.1, replaceCellRegex missingTokens p.2)))

/-! ## Field Nester (`nest_fields`)

From src/agoradatatools/etl/transform.py lines 74-99:
`df.groupby(grouping).apply(lambda g: g.replace({np.nan: None})
.drop(columns=drop_columns).to_dict("records")).reset_index()
.rename(columns={0: new_column})`.
pandas `groupby` (1.x) keeps the grouping column inside each group frame
passed to `apply`, sorts the distinct non-null keys ascending, and drops
null-keyed rows. -/

/-- Drop the listed columns from a record (`DataFrame.drop(columns=...)`). -/
def dropColumns (dc : List String) (r : Row) : Row :=
  r.filter (fun p => !(dc.contains p.1))

/-- Replace the missing marker by the Python `None` object
(`replace({np.nan: None})`). -/
def replaceNanNone (r : Row) : Row :=
  r.map (fun p => (p.1, if p.2 == Cell.nan then Cell.pynone else p.2))

/-- Distinct non-null values of a column, in ascending key order — the
groups produced by `df.groupby(col)`. -/
def groupKeys (df : List Row) (c : String) : List Val :=
  sortLe valLe ((df.filterMap (fun r => (getCell r c).toVal)).dedup)

/-- The group frame belonging to one key. -/
def groupFrame (df : List Row) (c : String) (k : Val) : List Row :=
  df.filter (fun r => getCell r c == Cell.val k)

/-- The two-column output frame of the Field Nester. -/
structure NestedFrame where
  key_column : String
  nested_column : String
  rows : List (Val × List Row)
deriving DecidableEq

/-- The Field Nester. -/
def nest_fields (df : List Row) (grouping : String) (new_column : String)
    (drop_columns : List String) : NestedFrame :=
  { key_column := grouping
    nested_column := new_column
    rows := (groupKeys df grouping).map (fun k =>
      (k, (groupFrame df grouping k).map
        (fun r => dropColumns drop_columns (replaceNanNone r)))) }

/-! ## Grouped Aggregator (`count_grouped_total`)

From src/agoradatatools/etl/transform.py lines 154-180:
`df.groupby(grouping)[input_colname].nunique()`.  `nunique` counts
distinct non-null values; `groupby` drops rows whose key combination
contains a null and sorts key tuples ascending. -/

/-- Sequence a list of options: all-or-nothing. -/
def seqOption : List (Option α) → Option (List α)
  | [] => some []
  | o :: os =>
    match o, seqOption os with
    | some a, some as => some (a :: as)
    | _, _ => none

/-- The key tuple of a row under a multi-column grouping; `none` when any
grouping cell is null (the row is then dropped by `groupby`). -/
def keyOf (r : Row) (grouping : List String) : Option (List Val) :=
  seqOption (grouping.map (fun c => (getCell r c).toVal))

/-- Number of distinct non-null values of `input_colname` among the rows
with key tuple `k` (`nunique`). -/
def nuniqueIn (df : List Row) (grouping : List String) (k : List Val)
    (input_colname : String) : ℕ :=
  (((df.filter (fun r => keyOf r grouping == some k)).filterMap
    (fun r => (getCell r input_colname).toVal)).dedup).length

/-- Output frame of the Grouped Aggregator: key tuples plus the count column. -/
structure CountFrame where
  group_columns : List String
  count_column : String
  rows : List (List Val × ℕ)
deriving DecidableEq

/-- The Grouped Aggregator. -/
def count_grouped_total (df : List Row) (grouping : List String)
    (input_colname : String) (output_colname : String) : CountFrame :=
  { group_columns := grouping
    count_column := output_colname
    rows := (sortLe valListLe ((df.filterMap (fun r => keyOf r grouping)).dedup)).map
      (fun k => (k, nuniqueIn df grouping k input_colname)) }

/-! ## Genes-Biodomains Transform

From src/agoradatatools/etl/transform.py lines 183-252 (also present, with
identical logic, in src/src/agoradatatools/etl/transform/transform_genes_biodomains.py).
The transform is embedded at its concrete schema (columns
`ensembl_gene_id`, `biodomain`, `go_terms`).  The three
`count_grouped_total` calls and the three left merges back onto the
gene-biodomain grouping are embedded as distinct-count lookups: the merge
keys are drawn from the very table the counts were computed from, so each
left merge finds exactly one match. -/

/-- An input row of the `genes_biodomains` dataset (cells nullable). -/
structure BiodomainRow where
  ensembl_gene_id : Option String
  biodomain : Option String
  go_terms : Option String
deriving DecidableEq

/-- Number of distinct values in a list (`nunique` over non-null values). -/
def countDistinct (l : List String) : ℕ := l.dedup.length

/-- Ordering on (gene, biodomain) pairs used by the two-column `groupby`. -/
def pairLe (a b : String × String) : Bool :=
  if a.1 = b.1 then strLe a.2 b.2 else strLe a.1 b.1

/-- One nested record of the output `gene_biodomains` column: the
gene-biodomain grouping columns (minus the dropped `ensembl_gene_id` and
`n_gene_total_terms`). -/
structure GeneBiodomainRecord where
  biodomain : String
  go_terms : List String
  n_biodomain_terms : ℕ
  n_gene_biodomain_terms : ℕ
  pct_linking_terms : ℚ
deriving DecidableEq

/-- Rows remaining after selecting the three interesting columns and
`dropna()`. -/
def biodomainDropna (input : List BiodomainRow) : List (String × String × String) :=
  input.filterMap (fun r =>
    match r.ensembl_gene_id, r.biodomain, r.go_terms with
    | some g, some b, some t => some (g, b, t)
    | _, _, _ => none)

/-- Distinct `go_terms` per biodomain (`count_grouped_total(df, "biodomain",
"go_terms", "n_biodomain_terms")`, looked up by the later left merge). -/
def nBiodomainTerms (rows : List (String × String × String)) (b : String) : ℕ :=
  countDistinct ((rows.filter (fun r => r.2.1 == b)).map (fun r => r.2.2))

/-- Distinct `go_terms` per gene (`n_gene_total_terms`). -/
def nGeneTotalTerms (rows : List (String × String × String)) (g : String) : ℕ :=
  countDistinct ((rows.filter (fun r => r.1 == g)).map (fun r => r.2.2))

/-- Distinct `go_terms` per gene-biodomain combination
(`n_gene_biodomain_terms`). -/
def nGeneBiodomainTerms (rows : List (String × String × String)) (g b : String) : ℕ :=
  countDistinct ((rows.filter (fun r => r.1 == g && r.2.1 == b)).map (fun r => r.2.2))

/-- The merged row for one gene-biodomain combination, after the
`pct_linking_terms` derivation and the drop of `n_gene_total_terms`. -/
def geneBiodomainRecord (rows : List (String × String × String)) (g b : String) :
    GeneBiodomainRecord :=
  { biodomain := b
    go_terms := (rows.filter (fun r => r.1 == g && r.2.1 == b)).map (fun r => r.2.2)
    n_biodomain_terms := nBiodomainTerms rows b
    n_gene_biodomain_terms := nGeneBiodomainTerms rows g b
    pct_linking_terms :=
      roundTo 2 ((nGeneBiodomainTerms rows g b : ℚ) / (nGeneTotalTerms rows g) * 100) }

/-- The Genes-Biodomains transform: select and `dropna`, count metrics,
group go_terms into lists per gene-biodomain, merge the counts, derive the
rounded percentage, drop the total column and nest by `ensembl_gene_id`. -/
def transform_genes_biodomains (input : List BiodomainRow) :
    List (String × List GeneBiodomainRecord) :=
  let rows := biodomainDropna input
  let pairs := sortLe pairLe ((rows.map (fun r => (r.1, r.2.1))).dedup)
  let genes := sortLe strLe ((pairs.map (fun p => p.1)).dedup)
  genes.map (fun g =>
    (g, (pairs.filter (fun p => p.1 == g)).map
      (fun p => geneBiodomainRecord rows p.1 p.2)))

/-! ## Gene-Info Transform

From src/agoradatatools/etl/transform.py lines 342-488.  The embedding
keeps the columns that feed the verified property (the p-value derived
flag columns) and the construction of the output row universe by the
successive `outer` merges on `ensembl_gene_id`; descriptive metadata
columns (name, summary, symbol, alias, nominations, nested payloads) do
not influence those columns and are not carried.  The
`validate="one_to_one"` option (which aborts the run on duplicate keys
and produces no output at all) is not modelled; the verified property is
row-local and holds for every produced row regardless. -/

/-- A row of the concatenated proteomics datasets: key plus the four
columns of the `dropna(subset=...)`. -/
structure ProtRow where
  ensembl_gene_id : Option String
  log2_fc : Option ℚ
  cor_pval : Option ℚ
  ci_lwr : Option ℚ
  ci_upr : Option ℚ
deriving DecidableEq

/-- The nine input datasets of the transform, reduced to key columns and
the p-value columns. -/
structure GeneInfoInput where
  gene_metadata : List (Option String)
  igap : List (Option String)
  eqtl : List (Option String × Option Bool)
  rna_expression_change : List (Option String × Option ℚ)
  proteomics : List ProtRow
  agora_proteomics_tmt : List ProtRow
  target_list : List (Option String)
  median_expression : List (Option String)
  druggability : List (Option String)
deriving DecidableEq

/-- An output row of the transform, restricted to the columns of the
verified properties. -/
structure GeneInfoRow where
  ensembl_gene_id : Option String
  is_igap : Bool
  has_eqtl : Bool
  rna_in_ad_brain_change : Bool
  rna_brain_change_studied : Bool
  protein_in_ad_brain_change : Bool
  protein_brain_change_studied : Bool
deriving DecidableEq

/-- Minimum of a list of rationals, `none` when empty (`agg("min")` on a
group whose values are all missing). -/
def listMinQ : List ℚ → Option ℚ
  | [] => none
  | q :: qs =>
    match listMinQ qs with
    | none => some q
    | some m => some (min q m)

/-- The `groupby("ensembl_gene_id")["adj_p_val"].agg("min")` step:
one row per distinct non-null key, minimum of the non-null values. -/
def groupMin (rows : List (Option String × Option ℚ)) : List (String × Option ℚ) :=
  (sortLe strLe ((rows.filterMap (fun r => r.1)).dedup)).map (fun k =>
    (k, listMinQ ((rows.filter (fun r => r.1 == some k)).filterMap (fun r => r.2))))

/-- The concatenation and `dropna(subset=["log2_fc","cor_pval","ci_lwr","ci_upr"])`
of the two proteomics datasets, reduced to (key, cor_pval) pairs. -/
def proteomicsConcat (a b : List ProtRow) : List (Option String × Option ℚ) :=
  ((a ++ b).filter (fun r =>
    r.log2_fc.isSome && r.cor_pval.isSome && r.ci_lwr.isSome && r.ci_upr.isSome)).map
    (fun r => (r.ensembl_gene_id, r.cor_pval))

/-- Key list of an `outer` merge: left keys, then the right rows that match
no left row (null keys never match anything and are always kept). -/
def outerMergeKeys (left right : List (Option String)) : List (Option String) :=
  left ++ right.filter (fun k =>
    match k with
    | none => true
    | some s => !(left.contains (some s)))

/-- Association lookup for a merged column. -/
def lookupCol (table : List (String × Option ℚ)) (k : String) : Option ℚ :=
  match table.find? (fun p => p.1 == k) with
  | some p => p.2
  | none => none

/-- One merged output row of the Gene-Info transform, for the key `k` of
the merged row universe: the `fillna` back-fill of `adj_p_val`/`cor_pval`
with `-1` and of the boolean columns with `False`, then the derivation of
the four flag columns. -/
def geneInfoRow (rna prot : List (String × Option ℚ)) (inp : GeneInfoInput)
    (adjusted_p_value_threshold protein_level_threshold : ℚ)
    (k : Option String) : GeneInfoRow :=
  let adj : ℚ := ((k.bind (lookupCol rna)).getD (-1))
  let corp : ℚ := ((k.bind (lookupCol prot)).getD (-1))
  let rna_studied := decide (adj ≠ -1)
  let prot_studied := decide (corp ≠ -1)
  { ensembl_gene_id := k
    is_igap := k.isSome && inp.igap.contains k
    has_eqtl := (k.bind (fun s =>
      (inp.eqtl.find? (fun r => r.1 == some s)).bind (fun r => r.2))).getD false
    rna_in_ad_brain_change := decide (adj ≤ adjusted_p_value_threshold) && rna_studied
    rna_brain_change_studied := rna_studied
    protein_in_ad_brain_change := decide (corp ≤ protein_level_threshold) && prot_studied
    protein_brain_change_studied := prot_studied }

/-- The Gene-Info transform (restricted as described above): build the
row universe by the outer merges, derive each row's columns, and drop rows
with a null `ensembl_gene_id`. -/
def transform_gene_info (inp : GeneInfoInput)
    (adjusted_p_value_threshold protein_level_threshold : ℚ) : List GeneInfoRow :=
  let rna := groupMin inp.rna_expression_change
  let prot := groupMin (proteomicsConcat inp.proteomics inp.agora_proteomics_tmt)
  let targetKeys := sortLe strLe ((inp.target_list.filterMap id).dedup)
  let medianKeys := sortLe strLe ((inp.median_expression.filterMap id).dedup)
  let druggKeys := sortLe strLe ((inp.druggability.filterMap id).dedup)
  let allKeys :=
    [inp.igap, inp.eqtl.map (fun r => r.1), rna.map (fun r => some r.1),
     prot.map (fun r => some r.1), targetKeys.map some, medianKeys.map some,
     druggKeys.map some].foldl outerMergeKeys inp.gene_metadata
  (allKeys.map
    (geneInfoRow rna prot inp adjusted_p_value_threshold protein_level_threshold)).filter
    (fun r => r.ensembl_gene_id.isSome)

/-! ## Distribution Calculator (`calculate_distribution`)

From src/agoradatatools/etl/transform.py lines 102-151.  The embedding
follows pandas `cut(series, bins=10, include_lowest=True, right=True)`:
with an integral number of bins, pandas computes 11 equally spaced edges
from the minimum to the maximum of the data and then, because
`right=True`, lowers the first edge by 0.1% of the range (when minimum
equals maximum it instead widens both ends by 0.1% of their magnitude, or
by 0.001 at zero); every non-null value then falls in exactly one
half-open bin `(e_i, e_(i+1)]`.  Values are idealized as exact rationals;
the `astype(float)` coercion of an object column is modelled by storing
score columns as rationals directly.  The summary-statistics fields
(`min`/`max`/`mean`/quartiles), which no verified claim mentions, are not
carried in the embedded summary. -/

/-- A row of the `overall_scores` dataset: numeric score columns and
string flag columns (`isscored_*` and the gene identifier).  A cell equal
to the truthy marker `"Y"` can only live in a flag column. -/
structure ScoreRow where
  scores : List (String × Option ℚ)
  flags : List (String × Option String)
deriving DecidableEq

/-- Value of a numeric column of a score row. -/
def getScore (r : ScoreRow) (c : String) : Option ℚ :=
  match r.scores.find? (fun p => p.1 == c) with
  | some p => p.2
  | none => none

/-- Value of a string column of a score row. -/
def getFlag (r : ScoreRow) (c : String) : Option String :=
  match r.flags.find? (fun p => p.1 == c) with
  | some p => p.2
  | none => none

/-- The row filter: `df[df[is_scored] == "Y"]` when an is-scored column is
given, else `df[df.isin(["Y"]).any(axis=1)]` (a numeric cell never equals
the string `"Y"`, so scanning the string columns is the whole scan). -/
def filterScored (df : List ScoreRow) (is_scored : Option String) : List ScoreRow :=
  match is_scored with
  | some c => df.filter (fun r => getFlag r c == some ("Y"))
  | none => df.filter (fun r => r.flags.any (fun p => p.2 == some ("Y")))

/-- The non-null observations of the target column. -/
def scoreValues (df : List ScoreRow) (col : String) : List ℚ :=
  df.filterMap (fun r => getScore r col)

/-- The augmented series: observed values plus the synthetic `0` and
`upper_bound` (`df[col].append(pd.Series([0, upper_bound]))`). -/
def augValues (xs : List ℚ) (ub : ℚ) : List ℚ := xs ++ [0, ub]

/-- Minimum of the augmented series. -/
def augMin (xs : List ℚ) (ub : ℚ) : ℚ := xs.foldl min (min 0 ub)

/-- Maximum of the augmented series. -/
def augMax (xs : List ℚ) (ub : ℚ) : ℚ := xs.foldl max (max 0 ub)

/-- The widened left end point used by `pd.cut` when the data range is a
single point (`mn -= 0.001 * abs(mn) if mn != 0 else 0.001`). -/
def cutLo (m : ℚ) : ℚ := m - (if m = 0 then 1/1000 else |m| / 1000)

/-- The widened right end point used by `pd.cut` when the data range is a
single point. -/
def cutHi (m : ℚ) : ℚ := m + (if m = 0 then 1/1000 else |m| / 1000)

/-- Edge `i` (0 ≤ i ≤ 10) of the ten `pd.cut` bins for data ranging over
`[mn, mx]`, after the pandas end-point adjustment described above. -/
def cutEdge (mn mx : ℚ) (i : ℕ) : ℚ :=
  if mn = mx then cutLo mn + (i : ℚ) * ((cutHi mx - cutLo mn) / 10)
  else if i = 0 then mn - (mx - mn) / 1000
  else mn + (i : ℚ) * ((mx - mn) / 10)

/-- Number of augmented values falling in bin `i`, i.e. in
`(cutEdge mn mx i, cutEdge mn mx (i+1)]`. -/
def binCount (mn mx : ℚ) (l : List ℚ) (i : ℕ) : ℕ :=
  l.countP (fun v => decide (cutEdge mn mx i < v) && decide (v ≤ cutEdge mn mx (i + 1)))

/-- The Distribution Summary: the ten corrected bin counts and the ten
rounded boundary pairs. -/
structure DistributionSummary where
  distribution : List ℤ
  bins : List (ℚ × ℚ)
deriving DecidableEq

/-- The Distribution Calculator: filter, augment, count the ten bins,
subtract one synthetic count from the first bin and one from the last
(`obj["distribution"][0] -= 1`, `obj["distribution"][-1] -= 1`), and
derive the rounded boundary pairs with the first lower bound forced to 0. -/
def calculate_distribution (df : List ScoreRow) (col : String)
    (is_scored : Option String) (upper_bound : ℚ) : DistributionSummary :=
  let xs := scoreValues (filterScored df is_scored) col
  let dist := augValues xs upper_bound
  let mn := augMin xs upper_bound
  let mx := augMax xs upper_bound
  { distribution := (List.range 10).map (fun i =>
      (binCount mn mx dist i : ℤ) - (if i = 0 then 1 else 0) - (if i = 9 then 1 else 0))
    bins := (List.range 10).map (fun i =>
      ((if i = 0 then 0 else roundTo 2 (cutEdge mn mx i)),
        roundTo 2 (cutEdge mn mx (i + 1)))) }

/-! ## Proteomics distribution builder

From src/src/agoradatatools/etl/transform/proteomics_distribution.py
(`transform_proteomics_distribution_data`): for every entry of the dataset
mapping it computes the per-tissue distribution of `log2_fc` via
`utils.calculate_distribution` and tags it `LFQ`/`TMT`/`SRM` according to
the source key, raising `ValueError` for any other key; the final
`pd.concat` raises when there is nothing to concatenate. -/

/-- Rational comparison as a Bool, for sorting. -/
def qLe (a b : ℚ) : Bool := decide (a ≤ b)

/-- Linear-interpolation quantile of a sorted list (the quantile rule of
pandas `describe`). -/
def quantileLinear (sorted : List ℚ) (p : ℚ) : ℚ :=
  let h : ℚ := ((sorted.length : ℚ) - 1) * p
  let i := (⌊h⌋).toNat
  let x0 := sorted.getD i 0
  let x1 := sorted.getD (i + 1) x0
  x0 + (h - ⌊h⌋) * (x1 - x0)

/-- Per-tissue five-number summary with Tukey fences. -/
structure TissueStats where
  tissue : String
  min : ℚ
  max : ℚ
  first_quartile : ℚ
  median : ℚ
  third_quartile : ℚ
deriving DecidableEq

/-- Modelled from the spec: `utils.calculate_distribution` (the module
`agoradatatools.etl.utils` is not among the provided sources; only this
caller is).  Per the spec it groups the data frame by `tissue`, computes
the five-number summary of `log2_fc` per group, widens min and max to the
Tukey fences `first_quartile - 1.5*IQR` and `third_quartile + 1.5*IQR`,
and rounds the five statistics to 4 decimals. -/
def utils_calculate_distribution (df : List (String × ℚ)) : List TissueStats :=
  (sortLe strLe ((df.map (fun r => r.1)).dedup)).map (fun t =>
    let vals := sortLe qLe ((df.filter (fun r => r.1 == t)).map (fun r => r.2))
    let q1 := quantileLinear vals (1/4)
    let q3 := quantileLinear vals (3/4)
    let iqr := q3 - q1
    { tissue := t
      min := roundTo 4 (q1 - 3/2 * iqr)
      max := roundTo 4 (q3 + 3/2 * iqr)
      first_quartile := roundTo 4 q1
      median := roundTo 4 (quantileLinear vals (1/2))
      third_quartile := roundTo 4 q3 })

/-- A distribution row with its source-type discriminant column. -/
structure ProtDistRow where
  stats : TissueStats
  type : String
deriving DecidableEq

/-- The `df["type"] = datatype` assignment. -/
def tagType (rows : List TissueStats) (t : String) : List ProtDistRow :=
  rows.map (fun s => { stats := s, type := t })

/-- The loop body of the builder: one transformed frame per dataset entry,
or the `ValueError` for an unrecognized source key. -/
def proteomicsGo : List (String × List (String × ℚ)) →
    Except String (List (List ProtDistRow))
  | [] => .ok []
  | (name, dataset) :: rest =>
    let df := utils_calculate_distribution dataset
    if name = "proteomics" then (proteomicsGo rest).map (fun r => tagType df ("LFQ") :: r)
    else if name = "proteomics_tmt" then
      (proteomicsGo rest).map (fun r => tagType df ("TMT") :: r)
    else if name = "proteomics_srm" then
      (proteomicsGo rest).map (fun r => tagType df ("SRM") :: r)
    else .error ("ValueError: proteomics data type not supported: " ++ name)

/-- The proteomics distribution builder (the final `pd.concat(transformed)`
raises when the mapping was empty). -/
def transform_proteomics_distribution_data
    (datasets : List (String × List (String × ℚ))) : Except String (List ProtDistRow) :=
  match proteomicsGo datasets with
  | .error e => .error e
  | .ok ts => if ts.isEmpty then .error "ValueError: no objects to concatenate"
              else .ok ts.flatten

/-! ## Dispatcher (`apply_custom_transformations`)

From src/agoradatatools/etl/transform.py lines 636-677.  The dispatcher's
job is routing, so it is embedded as a function from dynamically typed
arguments to the transform call it selects (or `none` when no transform is
configured, or a raised error when a required key is absent).  Python
values are modelled by `PyVal`; the type guards `type(datasets) is not
dict` / `type(dataset_name) is not str` are the match on the two
arguments. -/

/-- A dynamically typed Python value, as far as the dispatcher inspects it. -/
inductive PyVal where
  | dict (entries : List (String × PyVal))
  | str (s : String)
  | num (q : ℚ)
  | table (rows : List Row)
  | pynone

/-- The fixed registry of dataset names with a custom transform. -/
def registryNames : List String :=
  ["genes_biodomains", "overall_scores", "distribution_data", "team_info",
   "rnaseq_differential_expression", "gene_info", "rna_distribution_data",
   "proteomics_distribution_data"]

/-- The transform invocation selected by the dispatcher, with the
arguments it extracts. -/
inductive TransformCall where
  | genes_biodomains_call (datasets : List (String × PyVal))
  | overall_scores_call (df : PyVal)
  | distribution_data_call (datasets : List (String × PyVal))
      (overall_max genetics_max omics_max lit_max : PyVal)
  | team_info_call (datasets : List (String × PyVal))
  | rnaseq_differential_expression_call (datasets : List (String × PyVal))
  | gene_info_call (datasets : List (String × PyVal)) (adj_thr prot_thr : PyVal)
  | rna_distribution_data_call (datasets : List (String × PyVal))
  | proteomics_distribution_data_call (datasets : List (String × PyVal))

/-- Python subscription `v[k]`: `KeyError` on a missing key, `TypeError`
on a non-mapping. -/
def pySubscript (v : PyVal) (k : String) : Except String PyVal :=
  match v with
  | .dict entries =>
    match entries.find? (fun p => p.1 == k) with
    | some p => .ok p.2
    | none => .error ("KeyError: " ++ k)
  | _ => .error ("TypeError: not subscriptable: " ++ k)

/-- The Dispatcher: `None` for a non-mapping dataset collection or a
non-string name, exact-match routing over the fixed registry, `None` for
every unregistered name. -/
def apply_custom_transformations (datasets dataset_name dataset_obj : PyVal) :
    Except String (Option TransformCall) :=
  match datasets, dataset_name with
  | .dict ds, .str name =>
    if name = "genes_biodomains" then .ok (some (.genes_biodomains_call ds))
    else if name = "overall_scores" then
      match pySubscript (.dict ds) ("overall_scores") with
      | .ok df => .ok (some (.overall_scores_call df))
      | .error e => .error e
    else if name = "distribution_data" then do
      let ct ← pySubscript dataset_obj ("custom_transformations")
      let o ← pySubscript ct ("overall_max_score")
      let g ← pySubscript ct ("genetics_max_score")
      let m ← pySubscript ct ("omics_max_score")
      let l ← pySubscript ct ("lit_max_score")
      pure (some (.distribution_data_call ds o g m l))
    else if name = "team_info" then .ok (some (.team_info_call ds))
    else if name = "rnaseq_differential_expression" then
      .ok (some (.rnaseq_differential_expression_call ds))
    else if name = "gene_info" then do
      let ct ← pySubscript dataset_obj ("custom_transformations")
      let a ← pySubscript ct ("adjusted_p_value_threshold")
      let p ← pySubscript ct ("protein_level_threshold")
      pure (some (.gene_info_call ds a p))
    else if name = "rna_distribution_data" then .ok (some (.rna_distribution_data_call ds))
    else if name = "proteomics_distribution_data" then
      .ok (some (.proteomics_distribution_data_call ds))
    else .ok none
  | _, _ => .ok none

/-! ## RNA-seq Differential-Expression Transform (`transform_rna_seq_data`)

From src/agoradatatools/etl/transform.py lines 300-339 (identical logic in
src/src/agoradatatools/etl/transform/rnaseq_differential_expression.py).
The `Series.replace(..., regex=True)` calls substitute substrings
(`re.sub`) with the given replacement strings, one mapping after the
other; the regex `"\\."` is the literal dot.  Floats are idealized as
reals so that `2 ** logfc` is the real power `Real.rpow`. -/

/-- Replace every non-overlapping occurrence of `pat` (left to right) by
`rep`, fuel-indexed for structural recursion; fuel at the input length is
enough since every step consumes at least one character.  An empty
pattern copies the input (no call site passes one). -/
def substAux (pat rep : List Char) : ℕ → List Char → List Char
  | 0, l => l
  | _ + 1, [] => []
  | n + 1, c :: cs =>
    if !pat.isEmpty && pat.isPrefixOf (c :: cs) then
      rep ++ substAux pat rep n (List.drop pat.length (c :: cs))
    else c :: substAux pat rep n cs

/-- `re.sub` for a pattern without metacharacters. -/
def substStr (pat rep s : String) : String :=
  String.mk (substAux pat.toList rep.toList s.toList.length s.toList)

/-- A dictionary-shaped `Series.replace(..., regex=True)`: substitute the
mappings one after the other. -/
def applyReplaces (prs : List (String × String)) (s : String) : String :=
  prs.foldl (fun acc pr => substStr pr.1 pr.2 acc) s

/-- An input row of the `diff_exp_data` dataset. -/
structure DiffExpInRow where
  ensembl_gene_id : String
  hgnc_symbol : String
  logfc : ℝ
  ci_l : ℝ
  ci_r : ℝ
  adj_p_val : ℝ
  tissue : String
  study : String
  model : String
  sex : String

/-- An output row, after the column projection. -/
structure DiffExpOutRow where
  ensembl_gene_id : String
  hgnc_symbol : String
  logfc : ℝ
  fc : ℝ
  ci_l : ℝ
  ci_r : ℝ
  adj_p_val : ℝ
  tissue : String
  study : String
  model : String

/-- The RNA-seq differential-expression transform: vocabulary
substitutions on `study`, `sex` and `model`, the derivation
`fc = 2 ** logfc`, the sex suffix on `model`, and the ten-column
projection. -/
noncomputable def transform_rna_seq_data (diff_exp_data : List DiffExpInRow) :
    List DiffExpOutRow :=
  diff_exp_data.map (fun r =>
    let study := applyReplaces [("MAYO", "MayoRNAseq"), ("MSSM", "MSBB")] r.study
    let sex := applyReplaces
      [("ALL", "males and females"), ("FEMALE", "females only"), ("MALE", "males only")]
      r.sex
    let model := substStr ("Diagnosis") ("AD Diagnosis") (substStr (".") (" x ") r.model)
    { ensembl_gene_id := r.ensembl_gene_id
      hgnc_symbol := r.hgnc_symbol
      logfc := r.logfc
      fc := Real.rpow 2 r.logfc
      ci_l := r.ci_l
      ci_r := r.ci_r
      adj_p_val := r.adj_p_val
      tissue := r.tissue
      study := study
      model := model ++ " (" ++ sex ++ ")" })

/-! ## Helper lemmas

The four basic rational operations are `@[irreducible]` in the ambient
library; re-marking them semireducible locally lets `decide` evaluate the
embedded transforms on concrete rational inputs. -/

attribute [local semireducible] Rat.mul Rat.inv Rat.add Rat.sub

/-- A character that survives the removal step normalizes to a character
that again survives it and that separator replacement and lowercasing fix. -/
lemma stdChar_fixed (n : ℕ) (h : isRemovedChar n = false) :
    isRemovedChar (pyLower (repSep n)) = false ∧
      pyLower (repSep (pyLower (repSep n))) = pyLower (repSep n) := by
  simp only [isRemovedChar, repSep, pyLower, decide_eq_false_iff_not] at h ⊢
  constructor <;> split_ifs <;> omega

/-- Normalizing a column name twice is the same as normalizing it once. -/
lemma stdName_idem (s : List ℕ) : stdName (stdName s) = stdName s := by
  induction s with
  | nil => rfl
  | cons c cs ih =>
    by_cases h : isRemovedChar c = true
    · simpa [stdName, h] using ih
    · have h' : isRemovedChar c = false := by simpa using h
      simpa [stdName, h', (stdChar_fixed c h').1, (stdChar_fixed c h').2] using ih

/-- The executable substring search agrees with list-infix containment. -/
lemma subOf_iff (pat : List Char) (l : List Char) : subOf pat l = true ↔ pat <:+: l := by
  induction l with
  | nil =>
    simp only [subOf, List.isEmpty_iff]
    constructor
    · intro h; simp [h]
    · intro h; simpa using List.eq_nil_of_infix_nil h
  | cons c cs ih =>
    simp [subOf, ih, List.infix_cons_iff, List.isPrefixOf_iff_prefix]

/-- Filtering by a predicate implied by definedness of `f` does not change
a `filterMap`. -/
lemma filterMap_filter_of_isSome {α β : Type _} (f : α → Option β) (p : α → Bool)
    (hp : ∀ a, (f a).isSome → p a = true) (l : List α) :
    (l.filter p).filterMap f = l.filterMap f := by
  induction l with
  | nil => rfl
  | cons a as ih =>
    by_cases h : p a = true
    · simp [List.filter_cons, h, List.filterMap_cons, ih]
    · have hfa : f a = none := by
        cases hf : f a with
        | none => rfl
        | some b => exact absurd (hp a (by simp [hf])) h
      simp [List.filter_cons, h, List.filterMap_cons, hfa, ih]

/-- Filtering by a weaker predicate first does not change a filter. -/
lemma filter_filter_of_imp {α : Type _} (p q : α → Bool)
    (hpq : ∀ a, q a = true → p a = true) (l : List α) :
    (l.filter p).filter q = l.filter q := by
  induction l with
  | nil => rfl
  | cons a as ih =>
    by_cases hq : q a = true
    · simp [List.filter_cons, hq, hpq a hq, ih]
    · by_cases hp : p a = true <;> simp [List.filter_cons, hq, hp, ih]

/-! ## Claim theorems -/

/-- C1: on the three-row input `(G1,B1,T1)`, `(G1,B1,T2)`, `(G1,B2,T3)`
the genes_biodomains transform produces exactly one output row, keyed
`G1`, whose nested list holds exactly two records: `B1` with
`pct_linking_terms = 66.67` and `B2` with `pct_linking_terms = 33.33`. -/
theorem transform_genes_biodomains_scenario :
    (transform_genes_biodomains
      [{ ensembl_gene_id := some ("G1"), biodomain := some ("B1"), go_terms := some ("T1") },
       { ensembl_gene_id := some ("G1"), biodomain := some ("B1"), go_terms := some ("T2") },
       { ensembl_gene_id := some ("G1"), biodomain := some ("B2"), go_terms := some ("T3") }]).map
      (fun p => (p.1, p.2.map (fun r => (r.biodomain, r.pct_linking_terms)))) =
    [(("G1"), [(("B1"), (6667 : ℚ)/100), (("B2"), (3333 : ℚ)/100)])] := by decide

/-- C8: the Column Normalizer is idempotent — normalizing the column
names of its own output yields the same column names as normalizing once. -/
theorem standardize_column_names_idempotent (cols : List (List ℕ)) :
    standardize_column_names (standardize_column_names cols) =
      standardize_column_names cols := by
  induction cols with
  | nil => rfl
  | cons c cs ih =>
    simpa [standardize_column_names, stdName_idem c] using ih

/-- C4 counterexample: with an empty exclusion list, the nested record
produced by `nest_fields` still contains the grouping column `g` (pandas
`groupby.apply` hands each group to the lambda with the grouping column
included), contradicting the claim that the grouping column itself is
removed from every nested record. -/
theorem nest_fields_keeps_grouping_cex :
    (nest_fields [[("g", Cell.val (Val.str ("A"))), ("x", Cell.nan)]]
        ("g") ("nested") []).rows =
      [(Val.str ("A"), [[("g", Cell.val (Val.str ("A"))), ("x", Cell.pynone)]])] ∧
    ("g", Cell.val (Val.str ("A"))) ∈
      [("g", Cell.val (Val.str ("A"))), ("x", Cell.pynone)] := by decide

/-- C5 counterexample: the cell value `banana n/a split` is not one of the
four sentinel tokens, yet `standardize_values` rewrites it to the missing
marker, because the pandas `replace(..., regex=True)` call matches the
tokens as substrings. -/
theorem standardize_values_substring_cex :
    "banana n/a split" ∉ missingTokens ∧
      standardize_values [[("colA", Cell.val (Val.str ("banana n/a split")))]] =
        [[("colA", Cell.nan)]] := by decide

/-- C2: in every row of the gene_info transform's output, for every input
and every pair of thresholds, if `rna_brain_change_studied` is false then
`rna_in_ad_brain_change` is false. -/
theorem transform_gene_info_rna_flag (inp : GeneInfoInput) (a p : ℚ)
    (row : GeneInfoRow) (h : row ∈ transform_gene_info inp a p)
    (hs : row.rna_brain_change_studied = false) :
    row.rna_in_ad_brain_change = false := by
  simp only [transform_gene_info, List.mem_filter, List.mem_map] at h
  obtain ⟨⟨k, _, hrow⟩, _⟩ := h
  subst hrow
  simp only [geneInfoRow] at hs ⊢
  rw [hs, Bool.and_false]

/-- Demonstration input for the gene_info witness: one metadata gene and
no other data. -/
def geneInfoDemoInput : GeneInfoInput :=
  { gene_metadata := [some ("G")], igap := [], eqtl := [], rna_expression_change := [],
    proteomics := [], agora_proteomics_tmt := [], target_list := [],
    median_expression := [], druggability := [] }

/-- The output row the gene_info witness exhibits. -/
def geneInfoDemoRow : GeneInfoRow :=
  { ensembl_gene_id := some ("G"), is_igap := false, has_eqtl := false,
    rna_in_ad_brain_change := false, rna_brain_change_studied := false,
    protein_in_ad_brain_change := false, protein_brain_change_studied := false }

/-- Witness for C2 at a concrete input. -/
theorem transform_gene_info_rna_flag_witness :
    geneInfoDemoRow ∈ transform_gene_info geneInfoDemoInput 1 1 ∧
      geneInfoDemoRow.rna_brain_change_studied = false ∧
      geneInfoDemoRow.rna_in_ad_brain_change = false :=
  ⟨by decide, by decide,
    transform_gene_info_rna_flag geneInfoDemoInput 1 1 geneInfoDemoRow
      (by decide) (by decide)⟩

/-- C9: in the output of the RNA-seq differential-expression transform,
every row's `fc` column equals `2` raised to that row's `logfc` column. -/
theorem transform_rna_seq_fc (input : List DiffExpInRow) (row : DiffExpOutRow)
    (h : row ∈ transform_rna_seq_data input) : row.fc = Real.rpow 2 row.logfc := by
  simp only [transform_rna_seq_data, List.mem_map] at h
  obtain ⟨r, _, hrow⟩ := h
  subst hrow
  rfl

/-- Demonstration input row for the RNA-seq witness. -/
noncomputable def rnaSeqDemoIn : DiffExpInRow :=
  { ensembl_gene_id := "E1", hgnc_symbol := "H1", logfc := 1, ci_l := 0, ci_r := 0,
    adj_p_val := 0, tissue := "TCX", study := "MAYO", model := "Diagnosis", sex := "ALL" }

/-- The output row the RNA-seq witness exhibits. -/
noncomputable def rnaSeqDemoOut : DiffExpOutRow :=
  { ensembl_gene_id := "E1", hgnc_symbol := "H1", logfc := 1, fc := Real.rpow 2 1,
    ci_l := 0, ci_r := 0, adj_p_val := 0, tissue := "TCX", study := "MayoRNAseq",
    model := "AD Diagnosis (males and females)" }

/-- Witness for C9 at a concrete input. -/
theorem transform_rna_seq_fc_witness :
    rnaSeqDemoOut ∈ transform_rna_seq_data [rnaSeqDemoIn] ∧
      rnaSeqDemoOut.fc = Real.rpow 2 rnaSeqDemoOut.logfc := by
  have hmem : rnaSeqDemoOut ∈ transform_rna_seq_data [rnaSeqDemoIn] := by
    simp only [transform_rna_seq_data, List.map_cons, List.map_nil]
    exact List.mem_singleton.mpr (by rfl)
  exact ⟨hmem, transform_rna_seq_fc [rnaSeqDemoIn] rnaSeqDemoOut hmem⟩

/-- C4 (amended): every nested record produced by `nest_fields` is the
corresponding source row of its group with the excluded columns removed
and every missing cell replaced by the explicit Python `None` marker (no
record cell is the numeric missing placeholder, no record cell belongs to
an excluded column); the grouping column itself is KEPT inside the
records unless it is listed among the excluded columns. -/
theorem nest_fields_records (df : List Row) (grouping new_column : String)
    (drop_columns : List String) (k : Val) (recs : List Row)
    (h : (k, recs) ∈ (nest_fields df grouping new_column drop_columns).rows) :
    recs = (df.filter (fun r => getCell r grouping == Cell.val k)).map
        (fun r => dropColumns drop_columns (replaceNanNone r)) ∧
      ∀ rec ∈ recs, ∀ p ∈ rec,
        p.2 ≠ Cell.nan ∧ drop_columns.contains p.1 = false := by
  simp only [nest_fields, List.mem_map] at h
  obtain ⟨k', _, heq⟩ := h
  injection heq with h1 h2
  subst h1
  subst h2
  refine ⟨rfl, ?_⟩
  intro rec hrec p hp
  simp only [List.mem_map] at hrec
  obtain ⟨r, _, rfl⟩ := hrec
  simp only [dropColumns, List.mem_filter] at hp
  obtain ⟨hmem, hdc⟩ := hp
  refine ⟨?_, by simpa using hdc⟩
  simp only [replaceNanNone, List.mem_map] at hmem
  obtain ⟨q, _, rfl⟩ := hmem
  by_cases hq : q.2 == Cell.nan
  · simp [hq]
  · simpa [hq] using by simpa using hq

/-- Demonstration dataset for the Field Nester witness. -/
def nestDemoDf : List Row := [[("g", Cell.val (Val.str ("A"))), ("x", Cell.nan)]]

/-- Witness for the amended C4 at a concrete input. -/
theorem nest_fields_records_witness :
    ((Val.str ("A"), [[(("g"), Cell.val (Val.str ("A")))]]) ∈
      (nest_fields nestDemoDf ("g") ("nested") [("x")]).rows) ∧
    ([[(("g"), Cell.val (Val.str ("A")))]] =
        (nestDemoDf.filter (fun r => getCell r ("g") == Cell.val (Val.str ("A")))).map
          (fun r => dropColumns [("x")] (replaceNanNone r)) ∧
      ∀ rec ∈ ([[(("g"), Cell.val (Val.str ("A")))]] : List Row), ∀ p ∈ rec,
        p.2 ≠ Cell.nan ∧ [("x")].contains p.1 = false) := by
  have hmem : (Val.str ("A"), [[(("g"), Cell.val (Val.str ("A")))]]) ∈
      (nest_fields nestDemoDf ("g") ("nested") [("x")]).rows := by decide
  exact ⟨hmem, nest_fields_records nestDemoDf ("g") ("nested") [("x")] _ _ hmem⟩

/-- C5 (amended): the Value Normalizer rewrites to the missing marker
exactly those string cells that contain one of the four sentinel tokens
as a substring (the `re.search` semantics of pandas
`replace(..., regex=True)`); every other cell is returned unchanged. -/
theorem standardize_values_characterization (df : List Row) :
    standardize_values df = df.map (fun r => r.map (fun p =>
      (p.1, match p.2 with
        | Cell.val (Val.str s) =>
          if ∃ t ∈ missingTokens, t.toList <:+: s.toList then Cell.nan
          else Cell.val (Val.str s)
        | c => c))) := by
  unfold standardize_values
  refine List.map_congr_left (fun r _ => ?_)
  refine List.map_congr_left (fun p _ => ?_)
  congr 1
  rcases p with ⟨c, v⟩
  rcases v with v | _ | _
  · rcases v with s | q
    · simp only [replaceCellRegex, regexSearchAny]
      by_cases hex : ∃ t ∈ missingTokens, t.toList <:+: s.toList
      · rw [if_pos, if_pos hex]
        obtain ⟨t, ht, hinf⟩ := hex
        exact List.any_eq_true.mpr ⟨t, ht, (subOf_iff _ _).mpr hinf⟩
      · rw [if_neg, if_neg hex]
        intro hany
        simp only [List.any_eq_true] at hany
        obtain ⟨t, ht, hsub⟩ := hany
        exact hex ⟨t, ht, (subOf_iff _ _).mp hsub⟩
    · rfl
  · rfl
  · rfl

/-- C10: rows whose grouping key is null contribute nothing to the
grouping building blocks — removing them beforehand changes neither the
Field Nester's output (no row, no nested record for them) nor the Grouped
Aggregator's output (no group row, no counted value). -/
theorem null_keyed_rows_dropped (df : List Row)
    (grouping new_column input_colname output_colname : String)
    (drop_columns grp : List String) :
    nest_fields (df.filter (fun r => !(getCell r grouping).isNull))
        grouping new_column drop_columns =
      nest_fields df grouping new_column drop_columns ∧
    count_grouped_total (df.filter (fun r => (keyOf r grp).isSome))
        grp input_colname output_colname =
      count_grouped_total df grp input_colname output_colname := by
  constructor
  · have hkeys : groupKeys (df.filter (fun r => !(getCell r grouping).isNull)) grouping =
        groupKeys df grouping := by
      unfold groupKeys
      rw [filterMap_filter_of_isSome]
      intro r hr
      cases hc : getCell r grouping <;> simp [Cell.toVal, hc] at hr ⊢ <;> simp [Cell.isNull]
    have hframe : ∀ k, groupFrame (df.filter (fun r => !(getCell r grouping).isNull))
        grouping k = groupFrame df grouping k := by
      intro k
      unfold groupFrame
      apply filter_filter_of_imp
      intro r hr
      have hc : getCell r grouping = Cell.val k := by simpa using hr
      simp [hc, Cell.isNull]
    simp only [nest_fields, hkeys, hframe]
  · have hkeys : (df.filter (fun r => (keyOf r grp).isSome)).filterMap
        (fun r => keyOf r grp) = df.filterMap (fun r => keyOf r grp) := by
      exact filterMap_filter_of_isSome _ _ (fun a ha => ha) df
    have hcnt : ∀ k, nuniqueIn (df.filter (fun r => (keyOf r grp).isSome)) grp k
        input_colname = nuniqueIn df grp k input_colname := by
      intro k
      unfold nuniqueIn
      rw [filter_filter_of_imp]
      intro r hr
      have hk : keyOf r grp = some k := by simpa using hr
      simp [hk]
    simp only [count_grouped_total, hkeys, hcnt]

/-- C6: the proteomics distribution builder raises a value error whenever
some dataset key is not one of the recognized proteomics source keys
(`proteomics` for LFQ, `proteomics_tmt` for TMT, `proteomics_srm` for
SRM); an unrecognized key is never silently dropped from the output. -/
theorem proteomics_distribution_unknown_key
    (datasets : List (String × List (String × ℚ))) (name : String)
    (df : List (String × ℚ)) (hmem : (name, df) ∈ datasets)
    (hname : ¬(name = "proteomics" ∨ name = "proteomics_tmt" ∨ name = "proteomics_srm")) :
    ∃ e, transform_proteomics_distribution_data datasets = Except.error e := by
  push_neg at hname
  obtain ⟨hn1, hn2, hn3⟩ := hname
  have hgo : ∃ e, proteomicsGo datasets = Except.error e := by
    induction datasets with
    | nil => cases hmem
    | cons hd tl ih =>
      obtain ⟨n, d⟩ := hd
      rcases List.mem_cons.mp hmem with heq | hmem'
      · injection heq with h1 h2
        subst h1
        exact ⟨"ValueError: proteomics data type not supported: " ++ name,
          by simp only [proteomicsGo, if_neg hn1, if_neg hn2, if_neg hn3]⟩
      · obtain ⟨e, he⟩ := ih hmem'
        by_cases h1 : n = "proteomics"
        · exact ⟨e, by simp [proteomicsGo, h1, he, Except.map]⟩
        · by_cases h2 : n = "proteomics_tmt"
          · exact ⟨e, by simp [proteomicsGo, h1, h2, he, Except.map]⟩
          · by_cases h3 : n = "proteomics_srm"
            · exact ⟨e, by simp [proteomicsGo, h1, h2, h3, he, Except.map]⟩
            · exact ⟨"ValueError: proteomics data type not supported: " ++ n,
                by simp only [proteomicsGo, if_neg h1, if_neg h2, if_neg h3]⟩
  obtain ⟨e, he⟩ := hgo
  exact ⟨e, by simp [transform_proteomics_distribution_data, he]⟩

/-- Witness for C6 at a concrete input. -/
theorem proteomics_distribution_unknown_key_witness :
    (("bogus", ([(("t"), (1 : ℚ))] : List (String × ℚ))) ∈
        [(("bogus"), [(("t"), (1 : ℚ))])]) ∧
      ¬("bogus" = "proteomics" ∨ "bogus" = "proteomics_tmt" ∨ "bogus" = "proteomics_srm") ∧
      ∃ e, transform_proteomics_distribution_data [(("bogus"), [(("t"), (1 : ℚ))])] =
        Except.error e :=
  ⟨by decide, by decide,
    proteomics_distribution_unknown_key [(("bogus"), [(("t"), (1 : ℚ))])]
      ("bogus") [(("t"), (1 : ℚ))] (by decide) (by decide)⟩

/-- C7: the Dispatcher answers null, and raises nothing, whenever the
dataset collection is not a mapping, or the dataset name is not a string,
or the name matches no entry of the fixed registry. -/
theorem apply_custom_transformations_unrecognized
    (datasets dataset_name dataset_obj : PyVal)
    (h : (∀ ds, datasets ≠ PyVal.dict ds) ∨ (∀ s, dataset_name ≠ PyVal.str s) ∨
      (∃ s, dataset_name = PyVal.str s ∧ s ∉ registryNames)) :
    apply_custom_transformations datasets dataset_name dataset_obj =
      Except.ok none := by
  cases datasets with
  | dict ds =>
    cases dataset_name with
    | str s =>
      rcases h with h1 | h2 | ⟨s', hs', hnot⟩
      · exact absurd rfl (h1 ds)
      · exact absurd rfl (h2 s)
      · injection hs' with hss
        subst hss
        simp only [registryNames, List.mem_cons, List.not_mem_nil, or_false,
          not_or] at hnot
        obtain ⟨n1, n2, n3, n4, n5, n6, n7, n8⟩ := hnot
        simp only [apply_custom_transformations, if_neg n1, if_neg n2, if_neg n3,
          if_neg n4, if_neg n5, if_neg n6, if_neg n7, if_neg n8]
    | dict e => rfl
    | num q => rfl
    | table t => rfl
    | pynone => rfl
  | str s => rfl
  | num q => rfl
  | table t => rfl
  | pynone => rfl

/-- Witness for C7 at a concrete input. -/
theorem apply_custom_transformations_unrecognized_witness :
    ("bogus" ∉ registryNames) ∧
      apply_custom_transformations (PyVal.dict []) (PyVal.str ("bogus")) PyVal.pynone =
        Except.ok none :=
  ⟨by decide, apply_custom_transformations_unrecognized (PyVal.dict [])
    (PyVal.str ("bogus")) PyVal.pynone
    (Or.inr (Or.inr ⟨"bogus", rfl, by decide⟩))⟩

/-! ## Lemmas for the Distribution Calculator -/

/-- A left fold by `min` is at most its initial value. -/
lemma foldl_min_le_init (l : List ℚ) (d : ℚ) : l.foldl min d ≤ d := by
  induction l generalizing d with
  | nil => exact le_refl d
  | cons a as ih => exact le_trans (ih (min d a)) (min_le_left d a)

/-- A left fold by `min` is at most every list member. -/
lemma foldl_min_le_mem (l : List ℚ) (d v : ℚ) (h : v ∈ l) : l.foldl min d ≤ v := by
  induction l generalizing d with
  | nil => cases h
  | cons a as ih =>
    rcases List.mem_cons.mp h with rfl | h'
    · exact le_trans (foldl_min_le_init as (min d v)) (min_le_right d v)
    · exact ih (min d a) h'

/-- A left fold by `max` is at least its initial value. -/
lemma foldl_max_init_le (l : List ℚ) (d : ℚ) : d ≤ l.foldl max d := by
  induction l generalizing d with
  | nil => exact le_refl d
  | cons a as ih => exact le_trans (le_max_left d a) (ih (max d a))

/-- A left fold by `max` is at least every list member. -/
lemma foldl_max_mem_le (l : List ℚ) (d v : ℚ) (h : v ∈ l) : v ≤ l.foldl max d := by
  induction l generalizing d with
  | nil => cases h
  | cons a as ih =>
    rcases List.mem_cons.mp h with rfl | h'
    · exact le_trans (le_max_right d v) (foldl_max_init_le as (max d v))
    · exact ih (max d a) h'

/-- The augmented-series minimum bounds every augmented value below. -/
lemma augMin_le (xs : List ℚ) (ub v : ℚ) (h : v ∈ augValues xs ub) :
    augMin xs ub ≤ v := by
  unfold augValues at h
  unfold augMin
  rcases List.mem_append.mp h with h1 | h2
  · exact foldl_min_le_mem xs (min 0 ub) v h1
  · have hinit := foldl_min_le_init xs (min 0 ub)
    rcases List.mem_cons.mp h2 with rfl | h3
    · exact le_trans hinit (min_le_left 0 ub)
    · have hv : v = ub := by simpa using h3
      rw [hv]
      exact le_trans hinit (min_le_right 0 ub)

/-- The augmented-series maximum bounds every augmented value above. -/
lemma le_augMax (xs : List ℚ) (ub v : ℚ) (h : v ∈ augValues xs ub) :
    v ≤ augMax xs ub := by
  unfold augValues at h
  unfold augMax
  rcases List.mem_append.mp h with h1 | h2
  · exact foldl_max_mem_le xs (max 0 ub) v h1
  · have hinit := foldl_max_init_le xs (max 0 ub)
    rcases List.mem_cons.mp h2 with rfl | h3
    · exact le_trans (le_max_left 0 ub) hinit
    · have hv : v = ub := by simpa using h3
      rw [hv]
      exact le_trans (le_max_right 0 ub) hinit

/-- The augmented minimum never exceeds the augmented maximum. -/
lemma augMin_le_augMax (xs : List ℚ) (ub : ℚ) : augMin xs ub ≤ augMax xs ub :=
  le_trans (le_trans (foldl_min_le_init xs (min 0 ub)) (min_le_left 0 ub))
    (le_trans (le_max_left 0 ub) (foldl_max_init_le xs (max 0 ub)))

/-- The single-point widening moves the left end strictly left. -/
lemma cutLo_lt (m : ℚ) : cutLo m < m := by
  unfold cutLo
  split_ifs with h
  · linarith
  · have : 0 < |m| := abs_pos.mpr h
    linarith

/-- The single-point widening moves the right end strictly right. -/
lemma lt_cutHi (m : ℚ) : m < cutHi m := by
  unfold cutHi
  split_ifs with h
  · linarith
  · have : 0 < |m| := abs_pos.mpr h
    linarith

/-- Consecutive cut edges are strictly increasing. -/
lemma cutEdge_step (mn mx : ℚ) (h : mn ≤ mx) (i : ℕ) :
    cutEdge mn mx i < cutEdge mn mx (i + 1) := by
  by_cases heq : mn = mx
  · simp only [cutEdge, if_pos heq]
    have hlh : cutLo mn < cutHi mx := lt_trans (cutLo_lt mn) (heq ▸ lt_cutHi mx)
    have hs : 0 < (cutHi mx - cutLo mn) / 10 := by
      apply div_pos (by linarith) (by norm_num)
    have hcast : ((i + 1 : ℕ) : ℚ) = (i : ℚ) + 1 := by push_cast; ring
    rw [hcast]
    have h2 : (i : ℚ) * ((cutHi mx - cutLo mn) / 10) <
        ((i : ℚ) + 1) * ((cutHi mx - cutLo mn) / 10) :=
      mul_lt_mul_of_pos_right (lt_add_one _) hs
    linarith
  · have hlt : mn < mx := lt_of_le_of_ne h heq
    simp only [cutEdge, if_neg heq]
    rcases Nat.eq_zero_or_pos i with rfl | hi
    · have h01 : (0 + 1 : ℕ) ≠ 0 := by norm_num
      rw [if_pos rfl, if_neg h01]
      have hcast : ((0 + 1 : ℕ) : ℚ) = 1 := by norm_num
      rw [hcast, one_mul]
      linarith
    · have hne : i ≠ 0 := Nat.pos_iff_ne_zero.mp hi
      rw [if_neg hne, if_neg (Nat.succ_ne_zero i)]
      have hs : 0 < (mx - mn) / 10 := by
        apply div_pos (by linarith) (by norm_num)
      have hcast : ((i + 1 : ℕ) : ℚ) = (i : ℚ) + 1 := by push_cast; ring
      rw [hcast]
      have h2 : (i : ℚ) * ((mx - mn) / 10) < ((i : ℚ) + 1) * ((mx - mn) / 10) :=
        mul_lt_mul_of_pos_right (lt_add_one _) hs
      linarith

/-- The zeroth cut edge lies strictly below the data minimum. -/
lemma cutEdge_zero_lt (mn mx : ℚ) (h : mn ≤ mx) : cutEdge mn mx 0 < mn := by
  by_cases heq : mn = mx
  · simp only [cutEdge, if_pos heq, Nat.cast_zero, zero_mul, add_zero]
    exact cutLo_lt mn
  · have hlt : mn < mx := lt_of_le_of_ne h heq
    unfold cutEdge
    rw [if_neg heq, if_pos rfl]
    linarith

/-- The tenth cut edge lies at or above the data maximum. -/
lemma le_cutEdge_ten (mn mx : ℚ) (_h : mn ≤ mx) : mx ≤ cutEdge mn mx 10 := by
  by_cases heq : mn = mx
  · simp only [cutEdge, if_pos heq]
    have h1 : cutLo mn + ((10 : ℕ) : ℚ) * ((cutHi mx - cutLo mn) / 10) = cutHi mx := by
      push_cast
      ring
    rw [h1]
    exact le_of_lt (lt_cutHi mx)
  · simp only [cutEdge, if_neg heq, if_neg (by norm_num : (10 : ℕ) ≠ 0)]
    have h1 : mn + ((10 : ℕ) : ℚ) * ((mx - mn) / 10) = mx := by
      push_cast
      ring
    rw [h1]

/-- Splitting a half-open interval count at an interior point. -/
lemma countP_bin_split (l : List ℚ) (a b c : ℚ) (hab : a ≤ b) (hbc : b ≤ c) :
    l.countP (fun v => decide (a < v) && decide (v ≤ c)) =
      l.countP (fun v => decide (a < v) && decide (v ≤ b)) +
        l.countP (fun v => decide (b < v) && decide (v ≤ c)) := by
  induction l with
  | nil => rfl
  | cons x xs ih =>
    simp only [List.countP_cons, ih]
    rcases le_or_lt x b with hxb | hbx
    · have hxc : x ≤ c := le_trans hxb hbc
      have hnbx : ¬ b < x := not_lt.mpr hxb
      by_cases hax : a < x <;> simp [hax, hxb, hxc, hnbx] <;> omega
    · have hax : a < x := lt_of_le_of_lt hab hbx
      have hnxb : ¬ x ≤ b := not_le.mpr hbx
      by_cases hxc : x ≤ c <;> simp [hax, hbx, hnxb, hxc] <;> omega

/-- Counting over `(e 0, e k]` equals the sum of the per-bin counts, for
any monotone edge sequence. -/
lemma countP_partition (l : List ℚ) (e : ℕ → ℚ) (mono : ∀ i, e i ≤ e (i + 1)) :
    ∀ k, l.countP (fun v => decide (e 0 < v) && decide (v ≤ e k)) =
      ((List.range k).map
        (fun i => l.countP (fun v => decide (e i < v) && decide (v ≤ e (i + 1))))).sum := by
  intro k
  induction k with
  | zero =>
    simp only [List.range_zero, List.map_nil, List.sum_nil]
    rw [List.countP_eq_zero]
    intro v _
    simp only [Bool.and_eq_true, decide_eq_true_eq, not_and]
    intro h1 h2
    exact absurd (lt_of_lt_of_le h1 h2) (lt_irrefl _)
  | succ k ih =>
    have h0k : e 0 ≤ e k := (monotone_nat_of_le_succ mono) (Nat.zero_le k)
    rw [countP_bin_split l (e 0) (e k) (e (k + 1)) h0k (mono k), ih, List.range_succ,
      List.map_append, List.sum_append]
    simp

/-- C3: the ten corrected bin counts of the Distribution Summary sum to
the number of filtered non-null observations of the target column — the
two synthetic values each fall inside the binned range and are cancelled
by the two decrements — and there are exactly ten of them. -/
theorem calculate_distribution_counts (df : List ScoreRow) (col : String)
    (is_scored : Option String) (upper_bound : ℚ) :
    (calculate_distribution df col is_scored upper_bound).distribution.sum =
      ((scoreValues (filterScored df is_scored) col).length : ℤ) ∧
    (calculate_distribution df col is_scored upper_bound).distribution.length = 10 := by
  simp only [calculate_distribution]
  set xs := scoreValues (filterScored df is_scored) col with hxs
  set A := augValues xs upper_bound with hA
  set mn := augMin xs upper_bound with hmn
  set mx := augMax xs upper_bound with hmx
  have hle : mn ≤ mx := augMin_le_augMax xs upper_bound
  have hmono : ∀ i, cutEdge mn mx i ≤ cutEdge mn mx (i + 1) :=
    fun i => le_of_lt (cutEdge_step mn mx hle i)
  have htotal : A.countP
      (fun v => decide (cutEdge mn mx 0 < v) && decide (v ≤ cutEdge mn mx 10)) =
      A.length := by
    rw [List.countP_eq_length]
    intro v hv
    have h1 : mn ≤ v := augMin_le xs upper_bound v hv
    have h2 : v ≤ mx := le_augMax xs upper_bound v hv
    simp only [Bool.and_eq_true, decide_eq_true_eq]
    exact ⟨lt_of_lt_of_le (cutEdge_zero_lt mn mx hle) h1,
      le_trans h2 (le_cutEdge_ten mn mx hle)⟩
  have hpart := countP_partition A (cutEdge mn mx) hmono 10
  have hlen : A.length = xs.length + 2 := by simp [hA, augValues]
  rw [htotal, hlen] at hpart
  have hrange : List.range 10 = [0, 1, 2, 3, 4, 5, 6, 7, 8, 9] := rfl
  rw [hrange] at hpart
  simp only [List.map_cons, List.map_nil, List.sum_cons, List.sum_nil] at hpart
  refine ⟨?_, by simp⟩
  simp only [hrange, binCount, List.map_cons, List.map_nil, List.sum_cons, List.sum_nil]
  norm_num at hpart ⊢
  omega
